import Mathlib

/-
Verification of the annotation-merging and recoding pipeline of
src/bsmcalls/SNPnexus.py.

Strings of the Python source (cell values, column labels, separators,
variant-identity tokens) are embedded as lists of characters (Str).
A pandas DataFrame is embedded as a Frame: an ordered list of column
labels, a parallel list of per-column object-dtype flags, and an
ordered list of rows, each a key (the MultiIndex entry) paired with a
list of optional cells (none embeds NaN / missing).  Python exceptions
are embedded with Except PyErr.
-/

/-- Str embeds a Python string as its list of characters. -/
abbrev Str := List Char

/-- splitOnChar embeds the Python str.split method with a one-character
separator: splitting the empty string gives one empty piece, and
separators are not collapsed. -/
def splitOnChar (sep : Char) : Str → List Str
  | [] => [[]]
  | c :: cs =>
    if c = sep then [] :: splitOnChar sep cs
    else
      match splitOnChar sep cs with
      | [] => [[c]]
      | h :: t => (c :: h) :: t

/-- joinSep embeds the Python sep.join method on a list of strings. -/
def joinSep (sep : Str) : List Str → Str
  | [] => []
  | [x] => x
  | x :: y :: xs => x ++ sep ++ joinSep sep (y :: xs)

/-- idxOf? returns the position of the first occurrence of an element in
a list, or none when absent (used for pandas column-label lookup). -/
def idxOf? (c : Str) : List Str → Option Nat
  | [] => none
  | x :: xs => if x = c then some 0 else (idxOf? c xs).map (· + 1)

/-- digitsToNat? parses a nonempty all-digit string into a Nat. -/
def digitsToNat? (s : Str) : Option Nat :=
  if s.isEmpty then none
  else if s.all Char.isDigit then
    some (s.foldl (fun n c => n * 10 + (c.toNat - Char.toNat '0')) 0)
  else none

/-- strToInt? embeds the parse performed by pandas astype with the int64
dtype on a string: an optional leading minus sign followed by digits. -/
def strToInt? (s : Str) : Option Int :=
  match s with
  | '-' :: rest => (digitsToNat? rest).map (fun n => -(n : Int))
  | _ => (digitsToNat? s).map Int.ofNat

/-- Cell embeds one non-missing pandas cell value.  The constructors
record the dtype information the source code branches on: str for
free-form text, num for general numeric values, int8 for the 8-bit
integers produced by np.int8, catInt8 for those same integers wrapped
in pd.Categorical, and bool for boolean indicator values. -/
inductive Cell where
  | str : Str → Cell
  | num : Int → Cell
  | int8 : Int → Cell
  | catInt8 : Int → Cell
  | bool : Bool → Cell
deriving DecidableEq, Repr

/-- VariantKey embeds the five-part MultiIndex
(Individual ID, Tissue, CHROM, POS, Mutation) built by
read_TXT_per_annotation in SNPnexus.py. -/
structure VariantKey where
  indivID : Str
  tissue : Str
  chrom : Str
  pos : Int
  mutation : Str
deriving DecidableEq, Repr

/-- Frame embeds a pandas DataFrame indexed by VariantKey: ordered
column labels, a parallel list of flags marking which columns have
object dtype, and ordered rows of optional cells (none embeds NaN). -/
structure Frame where
  cols : List Str
  dtypes : List Bool
  rows : List (VariantKey × List (Option Cell))
deriving DecidableEq, Repr

/-- PyErr embeds the Python exception classes raised by the source. -/
inductive PyErr where
  | fileNotFound
  | valueError
  | keyError
deriving DecidableEq, Repr

/-- Frame.wf states that each row has one cell slot per column. -/
abbrev Frame.wf (t : Frame) : Prop := ∀ r ∈ t.rows, r.2.length = t.cols.length

/-- cellRowAt reads the cell of one row at a column label, as pandas
row[col] does: none when the label is absent or the cell is missing. -/
def cellRowAt (cols : List Str) (cells : List (Option Cell)) (c : Str) : Option Cell :=
  match idxOf? c cols with
  | some i => (cells[i]?).getD none
  | none => none

/-- Frame.col? extracts a whole column of a Frame by label, as the
pandas expression annot[col] does; none embeds the KeyError case. -/
def Frame.col? (t : Frame) (c : Str) : Option (List (Option Cell)) :=
  match idxOf? c t.cols with
  | some i => some (t.rows.map (fun r => (r.2[i]?).getD none))
  | none => none

/-- cellAt reads the cell of a Frame at a key and a column label,
taking the first row carrying the key. -/
def cellAt (t : Frame) (k : VariantKey) (c : Str) : Option Cell :=
  match t.rows.find? (fun r => decide (r.1 = k)) with
  | some r => cellRowAt t.cols r.2 c
  | none => none

/-- reindexRow rebuilds the cell list of one row for a new column-label
list, as the column reindex of pandas does: labels already present keep
their cell, new labels get a missing cell. -/
def reindexRow (oldCols : List Str) (cells : List (Option Cell)) (newCols : List Str) :
    List (Option Cell) :=
  newCols.map (fun c =>
    match idxOf? c oldCols with
    | some i => (cells[i]?).getD none
    | none => none)

/-- Frame.reindexColumns embeds DataFrame.reindex with the columns
argument: the column set and order become newCols, existing columns
keep their cells and dtype, new columns are entirely missing. -/
def Frame.reindexColumns (t : Frame) (newCols : List Str) : Frame :=
  { cols := newCols,
    dtypes := newCols.map (fun c =>
      match idxOf? c t.cols with
      | some i => t.dtypes.getD i false
      | none => false),
    rows := t.rows.map (fun r => (r.1, reindexRow t.cols r.2 newCols)) }

/-- Frame.reindexIndex embeds DataFrame.reindex with the index
argument: the row set and order become exactly keys; keys present keep
their cells, keys absent from the frame become entirely-missing rows. -/
def Frame.reindexIndex (t : Frame) (keys : List VariantKey) : Frame :=
  { t with
    rows := keys.map (fun k =>
      match t.rows.find? (fun r => decide (r.1 = k)) with
      | some r => (k, r.2)
      | none => (k, List.replicate t.cols.length none)) }

/-- Frame.setColumn embeds the pandas column assignment
annot[col] = vals: an existing column is overwritten in place, a new
column is appended after all existing columns.  The flag gives the
object-dtype status of the assigned values. -/
def Frame.setColumn (t : Frame) (c : Str) (vals : List (Option Cell)) (isObj : Bool) : Frame :=
  match idxOf? c t.cols with
  | some i =>
    { t with
      dtypes := t.dtypes.set i isObj,
      rows := List.zipWith (fun r v => (r.1, r.2.set i v)) t.rows vals }
  | none =>
    { cols := t.cols ++ [c],
      dtypes := t.dtypes ++ [isObj],
      rows := List.zipWith (fun r v => (r.1, r.2 ++ [v])) t.rows vals }

/-- exceptMap embeds a Python list comprehension whose body may raise:
elements are evaluated left to right and the first exception aborts. -/
def exceptMap (f : α → Except PyErr β) : List α → Except PyErr (List β)
  | [] => .ok []
  | x :: xs =>
    match f x with
    | .error e => .error e
    | .ok y =>
      match exceptMap f xs with
      | .error e => .error e
      | .ok ys => .ok (y :: ys)

/-- exceptFoldl embeds a Python for loop threading a value, whose body
may raise. -/
def exceptFoldl (f : β → α → Except PyErr β) : β → List α → Except PyErr β
  | b, [] => .ok b
  | b, x :: xs =>
    match f b x with
    | .error e => .error e
    | .ok b2 => exceptFoldl f b2 xs

/-- varid2index embeds the inner function varid2index of
read_TXT_per_annotation: the regex sub with pattern chr-prefix,
captured core, and a trailing colon-1 suffix (which rewrites the token
to its core exactly when the token starts with the three characters
chr, ends with the two characters colon-1, and has a nonempty core),
followed by a split on the colon character. -/
def varid2index (varid : Str) : List Str :=
  if varid.take 3 = "chr".data ∧ varid.drop (varid.length - 2) = ":1".data ∧ 6 ≤ varid.length
  then splitOnChar ':' ((varid.drop 3).take (varid.length - 5))
  else splitOnChar ':' varid

/-- varidToKey embeds the per-row index construction of
read_TXT_per_annotation: the variant-identity token must decompose into
exactly three colon-separated fields (CHROM, POS, Mutation) and POS
must parse as an int64; otherwise the enclosing read raises ValueError
(none here). -/
def varidToKey (indivID tissue : Str) (varid : Str) : Option VariantKey :=
  match varid2index varid with
  | [c, p, m] =>
    match strToInt? p with
    | some n => some ⟨indivID, tissue, c, n, m⟩
    | none => none
  | _ => none

/-- RawAnnot embeds the content of one parsed TXT_per_annotation file:
the Variation ID column as a list of identity tokens, and the
remaining columns (names, object-dtype flags, and one cell list per
row).  File location and the configurable missing-value markers of
pd.read_csv are abstracted away: featRows is the post-parse content. -/
structure RawAnnot where
  varids : List Str
  featNames : List Str
  featDtypes : List Bool
  featRows : List (List (Option Cell))
deriving DecidableEq, Repr

/-- keepCol embeds the column mask of read_TXT_per_annotation, which
drops the identity-derived columns Variation ID, Chromosome and
Position from the data columns. -/
def keepCol (c : Str) : Bool :=
  decide (¬ (c = "Variation ID".data ∨ c = "Chromosome".data ∨ c = "Position".data))

/-- read_TXT_per_annot embeds read_TXT_per_annotation of SNPnexus.py
with simplecolumns true: every identity token must yield a three-field key
(otherwise the np.array / DataFrame / astype chain raises ValueError),
the frame is indexed by the resulting VariantKeys, identity-derived
columns are dropped, and every kept column is renamed with the
annotation-source name and an underscore as its new label. -/
def read_TXT_per_annot (annotname indivID tissue : Str) (raw : RawAnnot) :
    Except PyErr Frame :=
  if raw.varids.isEmpty then .error .valueError
  else
    let keys := raw.varids.map (varidToKey indivID tissue)
    if keys.all Option.isSome then
      .ok { cols := (raw.featNames.filter keepCol).map (fun c => annotname ++ "_".data ++ c),
            dtypes := ((raw.featNames.zip raw.featDtypes).filter (fun p => keepCol p.1)).map
              Prod.snd,
            rows := ((keys.filterMap id).zip raw.featRows).map (fun p =>
              (p.1, ((raw.featNames.zip p.2).filter (fun q => keepCol q.1)).map Prod.snd)) }
    else .error .valueError

/-- hasDupIndex embeds any(annot.index.duplicated()). -/
def hasDupIndex (l : List VariantKey) : Bool :=
  decide (¬ l.Nodup)

/-- cellStr reads the string content of an object-dtype cell.  The
source applies sep.join directly, which raises TypeError when an
object-dtype column holds a non-string value; that case is outside
every claim and is embedded as the empty string. -/
def cellStr : Option Cell → Str
  | some (Cell.str s) => s
  | _ => []

/-- do_var embeds the inner function do_var of annotation_duplicates:
the rows carrying one key are kept unchanged when there is exactly one,
and otherwise collapsed to a copy of the first row in which every
object-dtype column is replaced by the sep-joined list of the rows'
values in their original order. -/
def do_var (annot : Frame) (sep : Str) (k : VariantKey) :
    List (VariantKey × List (Option Cell)) :=
  if (annot.rows.filter (fun r => decide (r.1 = k))).length = 1 then
    annot.rows.filter (fun r => decide (r.1 = k))
  else
    match annot.rows.filter (fun r => decide (r.1 = k)) with
    | [] => []
    | l0 :: rest =>
      [(l0.1, (List.range annot.cols.length).map (fun i =>
        if annot.dtypes.getD i false then
          some (Cell.str (joinSep sep ((l0 :: rest).map (fun r => cellStr ((r.2[i]?).getD none)))))
        else (l0.2[i]?).getD none))]

/-- annotation_duplicates embeds annotation_duplicates of SNPnexus.py:
the frame is returned unchanged unless its index has duplicates, and
otherwise rebuilt with one do_var block per distinct key.  The Python
set of index values has no defined order; it is embedded as the
first-occurrence order List.dedup. -/
def annotation_duplicates (annot : Frame) (sep : Str) : Frame :=
  if hasDupIndex (annot.rows.map Prod.fst) then
    { annot with
      rows := (((annot.rows.map Prod.fst).dedup).map (do_var annot sep)).flatten }
  else annot

/-- FileState embeds what the filesystem holds for one
(sample, annotation source) pair: no file at all, a file whose parse
by read_TXT_per_annotation raises ValueError, or a file that parses
into the given frame. -/
inductive FileState where
  | missing
  | malformed
  | table (t : Frame)
deriving DecidableEq

/-- get_annot embeds the inner function get_annot of
get_multi_annotations.  Reading a missing file raises
FileNotFoundError, which the try block does not catch (it catches only
ValueError); a ValueError-malformed file is downgraded to None; a
well-formed file is parsed and deduplicated with separator colon. -/
def get_annot (fs : Str → Str → FileState) (sample annotyp : Str) :
    Except PyErr (Option Frame) :=
  match fs sample annotyp with
  | .missing => .error .fileNotFound
  | .malformed => .ok none
  | .table t => .ok (some (annotation_duplicates t [':']))

/-- unionCols folds column-label lists into their union in order of
first appearance, as the pandas outer concat alignment does. -/
def unionCols (l : List (List Str)) : List Str :=
  l.foldl (fun acc cs => acc ++ cs.filter (fun c => decide (¬ c ∈ acc))) []

/-- concatRows embeds pd.concat with axis 0 on a list of frames (after
None entries have been dropped): an empty list raises ValueError,
otherwise rows are stacked and columns are outer-aligned.  A combined
column has object dtype when it does in any contributing frame. -/
def concatRows (frames : List Frame) : Except PyErr Frame :=
  if frames.isEmpty then .error .valueError
  else
    let cols := unionCols (frames.map Frame.cols)
    .ok { cols := cols,
          dtypes := cols.map (fun c => frames.any (fun f =>
            match idxOf? c f.cols with
            | some i => f.dtypes.getD i false
            | none => false)),
          rows := (frames.map (fun f =>
            f.rows.map (fun r => (r.1, reindexRow f.cols r.2 cols)))).flatten }

/-- concatCols embeds pd.concat with axis 1 and outer join on a list
of frames: an empty list raises ValueError; otherwise the index is the
union of the row keys (embedded in order of first appearance, the
claims not depending on row order), the columns are concatenated, and
a key absent from a frame gets missing cells in that frame's slots. -/
def concatCols (frames : List Frame) : Except PyErr Frame :=
  if frames.isEmpty then .error .valueError
  else
    let keys := ((frames.map (fun f => f.rows.map Prod.fst)).flatten).dedup
    .ok { cols := (frames.map Frame.cols).flatten,
          dtypes := (frames.map Frame.dtypes).flatten,
          rows := keys.map (fun k =>
            (k, (frames.map (fun f =>
              match f.rows.find? (fun r => decide (r.1 = k)) with
              | some r => r.2
              | none => List.replicate f.cols.length none)).flatten)) }

/-- do_annotyp embeds the inner function do_annotyp of
get_multi_annotations: one get_annot per sample of the manifest, None
contributions dropped, and the rest stacked with pd.concat axis 0. -/
def do_annotyp (fs : Str → Str → FileState) (samples : List Str) (annotyp : Str) :
    Except PyErr Frame :=
  match exceptMap (fun s => get_annot fs s annotyp) samples with
  | .error e => .error e
  | .ok l => concatRows (l.filterMap id)

/-- get_multi_annotations embeds get_multi_annotations of SNPnexus.py.
The sample manifest read from vcflistpath is embedded as the list of
its sample labels, and the filesystem under annotdirpath as the
FileState oracle; the per-sample individual-identifier and tissue
derivations are folded into the parsed tables the oracle returns. -/
def get_multi_annotations (annotlist : List Str) (samples : List Str)
    (fs : Str → Str → FileState) : Except PyErr Frame :=
  match exceptMap (do_annotyp fs samples) annotlist with
  | .error e => .error e
  | .ok fl => concatCols fl

/-- extended_columns embeds extended_columns of SNPnexus.py: every
column of columns that is listed in cols2insert is immediately
followed by its suffixed companion label. -/
def extended_columns (columns : List Str) (cols2insert : List Str) (sfx : Str) : List Str :=
  (columns.map (fun c => if c ∈ cols2insert then [c, c ++ sfx] else [c])).flatten

/-- binInd builds one indicator cell of binarize_cols: np.int8 applied
to the isna flag, wrapped in pd.Categorical when do_categ is set. -/
def binInd (do_categ : Bool) (isna : Bool) : Cell :=
  if do_categ then Cell.catInt8 (if isna then 1 else 0) else Cell.int8 (if isna then 1 else 0)

/-- bin_do_col embeds the inner function do_col of binarize_cols: the
suffixed companion of col is assigned np.int8 of the isna mask of col
(as a pd.Categorical of it when do_categ is set). -/
def bin_do_col (sfx : Str) (do_categ : Bool) (val : Frame) (col : Str) : Except PyErr Frame :=
  match Frame.col? val col with
  | none => .error .keyError
  | some cells =>
    .ok (val.setColumn (col ++ sfx) (cells.map (fun x => some (binInd do_categ x.isNone))) false)

/-- binarize_cols embeds binarize_cols of SNPnexus.py: the copy of
annot is column-reindexed to the extended column list, row-reindexed
to the index of calls, and then each selected column gets its
indicator column filled in. -/
def binarize_cols (cols2binarize : List Str) (annot : Frame) (calls : Frame)
    (sfx : Str) (do_categ : Bool) : Except PyErr Frame :=
  exceptFoldl (bin_do_col sfx do_categ)
    ((annot.reindexColumns (extended_columns annot.cols cols2binarize sfx)).reindexIndex
      (calls.rows.map Prod.fst))
    cols2binarize

/-- categ_helper embeds the inner function helper of
regularize_categ_cols: a missing cell passes through, a non-string
cell raises ValueError, and a string cell is replaced by the first
category of the extended list that occurs among its colon-split
tokens, the raw value being returned when none occurs. -/
def categ_helper (categories : List Str) (old : Option Cell) : Except PyErr (Option Str) :=
  match old with
  | none => .ok none
  | some (Cell.str s) =>
    match categories.find? (fun cat => decide (cat ∈ splitOnChar ':' s)) with
    | some cat => .ok (some cat)
    | none => .ok (some s)
  | some _ => .error .valueError

/-- regularize_col embeds the loop body of regularize_categ_cols for
one column: the fallback label other is appended to the category list,
helper maps each cell, pd.Categorical coerces every value outside the
category list to missing (raising ValueError when the categories are
not distinct), and fillna replaces missing values with nafillval
(raising ValueError when nafillval is not a category). -/
def regularize_col (categories0 : List Str) (nafillval : Str) (cells : List (Option Cell)) :
    Except PyErr (List (Option Cell)) :=
  match exceptMap (categ_helper (categories0 ++ ["other".data])) cells with
  | .error e => .error e
  | .ok l =>
    if ¬ (categories0 ++ ["other".data]).Nodup then .error .valueError
    else if ¬ nafillval ∈ categories0 ++ ["other".data] then .error .valueError
    else
      .ok ((l.map (fun x =>
        match x with
        | some v => if v ∈ categories0 ++ ["other".data] then some v else none
        | none => none)).map (fun x => some (Cell.str (x.getD nafillval))))

/-- regularize_categ_cols embeds regularize_categ_cols of SNPnexus.py:
each column named in the deep-copied specification is replaced in the
copied frame by its regularized version (the category dtype of the
result is not object). -/
def regularize_categ_cols (colsdict : List (Str × List Str)) (annot : Frame)
    (nafillval : Str) : Except PyErr Frame :=
  exceptFoldl (fun val pr =>
    match Frame.col? val pr.1 with
    | none => .error .keyError
    | some cells =>
      match regularize_col pr.2 nafillval cells with
      | .error e => .error e
      | .ok newCells => .ok (val.setColumn pr.1 newCells false)) annot colsdict

/-- vectorize_setvalued embeds vectorize_setvalued of SNPnexus.py.
The token set is embedded in first-occurrence order (the Python set
has no defined order).  The locals giving the intended insertion
position of the new columns are computed by the source but never used,
so each assignment appends its column at the end of the frame; the
assigned mask tests membership of the new column NAME (which carries
the namespacing when a token collides with an existing column) among
each row's tokens, exactly as the source comprehension does. -/
def vectorize_setvalued (annot : Frame) (colname : Str) (nonestr : Str) (sepstr : Char) :
    Except PyErr Frame :=
  match Frame.col? annot colname with
  | none => .error .keyError
  | some column =>
    let ll := column.map (fun x => splitOnChar sepstr (cellStr x))
    let s := (ll.flatten.dedup).filter (fun y => decide (¬ y = nonestr))
    let pfx := if s.any (fun y => decide (y ∈ annot.cols)) then colname ++ "_".data else []
    let new_colnames := s.map (fun y => pfx ++ y)
    .ok (new_colnames.foldl (fun a col =>
      a.setColumn col (ll.map (fun y => some (Cell.bool (decide (col ∈ y))))) false) annot)

/-- pyStrChars embeds Python iteration over a string, which yields its
one-character substrings. -/
def pyStrChars (s : Str) : List Str :=
  s.map (fun c => [c])

/-- vectorize_multiple_setvalued embeds vectorize_multiple_setvalued
of SNPnexus.py: the column list is zipped with the none-sentinel
collection and the single-column vectorizer is applied sequentially on
one working copy. -/
def vectorize_multiple_setvalued (annot : Frame) (colnamel : List Str)
    (nonestrl : List Str) (sepstr : Char) : Except PyErr Frame :=
  exceptFoldl (fun data pr => vectorize_setvalued data pr.1 pr.2 sepstr)
    annot (colnamel.zip nonestrl)

/-- vectorize_multiple_setvalued_default embeds the call of
vectorize_multiple_setvalued with its default nonestrl argument, the
PYTHON STRING None, whose zip with the column list iterates it
character-wise. -/
def vectorize_multiple_setvalued_default (annot : Frame) (colnamel : List Str)
    (sepstr : Char) : Except PyErr Frame :=
  vectorize_multiple_setvalued annot colnamel (pyStrChars "None".data) sepstr

/-- vk1 is a sample variant key for concrete test tables. -/
def vk1 : VariantKey := ⟨"i".data, "t".data, "1".data, 1, "A>G".data⟩

/-- cex7_annot is a table whose vectorized column X holds the tokens a
and b while a separate column is already named a. -/
def cex7_annot : Frame :=
  ⟨["a".data, "X".data], [true, true],
   [(vk1, [some (Cell.str "w".data), some (Cell.str "a:b".data)])]⟩

/-- cex7_out is what the source produces on cex7_annot: both namespaced
indicator columns are constantly False. -/
def cex7_out : Frame :=
  ⟨["a".data, "X".data, "X_a".data, "X_b".data], [true, true, false, false],
   [(vk1, [some (Cell.str "w".data), some (Cell.str "a:b".data),
           some (Cell.bool false), some (Cell.bool false)])]⟩

/-- cex8_annot is a collision-free table for the Set-Valued Vectorizer
with the vectorized column X first and another column Z after it. -/
def cex8_annot : Frame :=
  ⟨["X".data, "Z".data], [true, true],
   [(vk1, [some (Cell.str "a".data), some (Cell.str "z".data)])]⟩

/-- cex8_out is what the source produces on cex8_annot: the new
indicator column is appended after all existing columns. -/
def cex8_out : Frame :=
  ⟨["X".data, "Z".data, "a".data], [true, true, false],
   [(vk1, [some (Cell.str "a".data), some (Cell.str "z".data), some (Cell.bool true)])]⟩

/-- cex1_table is the well-formed parsed table of the one available
(sample, source) pair in the Joiner counterexample. -/
def cex1_table : Frame :=
  ⟨["A_f".data], [true], [(vk1, [some (Cell.str "x".data)])]⟩

/-- cex1_fs is a filesystem oracle on which source A has a well-formed
file for every sample and every other source file is absent. -/
def cex1_fs : Str → Str → FileState :=
  fun _ annotyp => if annotyp = "A".data then FileState.table cex1_table else FileState.missing

/-- cex2_annot is a one-column table whose single cell value zzz
matches no listed category. -/
def cex2_annot : Frame :=
  ⟨["g".data], [true], [(vk1, [some (Cell.str "zzz".data)])]⟩

/-- cex9_raw is a one-row annotation file whose variant-identity token
22:100:A>G:1 is well-formed but lacks the chr prefix. -/
def cex9_raw : RawAnnot :=
  ⟨["22:100:A>G:1".data], ["near".data], [true], [[some (Cell.str "x".data)]]⟩

theorem zip_eq_zip_take {α β : Type} (l : List α) (l2 : List β) :
    l.zip l2 = (l.take l2.length).zip l2 := by
  induction l generalizing l2 with
  | nil => simp
  | cons x xs ih =>
    cases l2 with
    | nil => simp
    | cons y ys => simp [List.zip_cons_cons, ih ys]

theorem keys_do_var (annot : Frame) (sep : Str) (k : VariantKey)
    (h : k ∈ annot.rows.map Prod.fst) : (do_var annot sep k).map Prod.fst = [k] := by
  have hkey : ∀ r ∈ annot.rows.filter (fun r => decide (r.1 = k)), r.1 = k := by
    intro r hr
    have := (List.mem_filter.mp hr).2
    simpa using this
  have hne : annot.rows.filter (fun r => decide (r.1 = k)) ≠ [] := by
    rcases List.mem_map.mp h with ⟨r, hr, hrk⟩
    exact List.ne_nil_of_mem (List.mem_filter.mpr ⟨hr, by simp [hrk]⟩)
  unfold do_var
  by_cases h1 : (annot.rows.filter (fun r => decide (r.1 = k))).length = 1
  · rcases List.length_eq_one.mp h1 with ⟨a, ha⟩
    rw [if_pos h1, ha]
    simp only [List.map_cons, List.map_nil]
    rw [hkey a (by rw [ha]; exact List.mem_singleton_self a)]
  · rw [if_neg h1]
    cases hl : annot.rows.filter (fun r => decide (r.1 = k)) with
    | nil => exact absurd hl hne
    | cons l0 rest =>
      have hk0 : l0.1 = k := hkey l0 (by rw [hl]; exact List.mem_cons_self l0 rest)
      simp [hk0]

theorem flatten_keys {g : VariantKey → List (VariantKey × List (Option Cell))}
    (ds : List VariantKey) (h : ∀ d ∈ ds, (g d).map Prod.fst = [d]) :
    ((ds.map g).flatten).map Prod.fst = ds := by
  induction ds with
  | nil => simp
  | cons d ds ih =>
    simp only [List.map_cons, List.flatten_cons, List.map_append]
    rw [h d (List.mem_cons_self _ _), ih (fun x hx => h x (List.mem_cons_of_mem _ hx))]
    rfl

theorem keys_annotation_duplicates (annot : Frame) (sep : Str)
    (h : hasDupIndex (annot.rows.map Prod.fst) = true) :
    (annotation_duplicates annot sep).rows.map Prod.fst = (annot.rows.map Prod.fst).dedup := by
  unfold annotation_duplicates
  rw [if_pos h]
  exact flatten_keys _ (fun d hd => keys_do_var annot sep d (List.mem_dedup.mp hd))

theorem annotation_duplicates_of_nodup (t : Frame) (sep : Str)
    (h : hasDupIndex (t.rows.map Prod.fst) = false) : annotation_duplicates t sep = t := by
  unfold annotation_duplicates
  simp [h]

/-- C6: the Duplicate Resolver is idempotent: a second application of
annotation_duplicates to its own output returns that output unchanged,
because the output never has a duplicated Variant Key. -/
theorem C6_theorem (annot : Frame) (sep : Str) :
    annotation_duplicates (annotation_duplicates annot sep) sep =
      annotation_duplicates annot sep := by
  by_cases h : hasDupIndex (annot.rows.map Prod.fst) = true
  · have hk := keys_annotation_duplicates annot sep h
    have h2 : hasDupIndex ((annotation_duplicates annot sep).rows.map Prod.fst) = false := by
      rw [hk]
      simp [hasDupIndex, List.nodup_dedup]
    exact annotation_duplicates_of_nodup _ sep h2
  · have h0 : annotation_duplicates annot sep = annot :=
      annotation_duplicates_of_nodup annot sep (by simpa using h)
    rw [h0, h0]

/-- C7: evaluation of the source at the failing input: the vectorized
column X holds the token a and a column named a already exists, so the
new columns are namespaced; the source then tests membership of the
namespaced NAME among the row tokens, so the indicator column X_a is
False although the token a occurs among the row's colon-split tokens,
where the claim requires True. -/
theorem C7_theorem :
    vectorize_setvalued cex7_annot ("X".data) ("None".data) ':' = .ok cex7_out ∧
    "a".data ∈ splitOnChar ':' ("a:b".data) ∧
    Frame.col? cex7_out ("X_a".data) = some [some (Cell.bool false)] :=
  ⟨rfl, by decide, rfl⟩

/-- C8: evaluation of the source at the failing input: the new
indicator column for token a is appended AFTER all existing columns,
so the column order is X, Z, a, although the claim requires the new
column to precede the original column X; the source computes the
intended insertion-order column list but never applies it. -/
theorem C8_theorem :
    vectorize_setvalued cex8_annot ("X".data) ("None".data) ':' = .ok cex8_out ∧
    cex8_out.cols = ["X".data, "Z".data, "a".data] :=
  ⟨rfl, rfl⟩

/-- C10: with the default none-token argument, the Python string None
is zipped character-wise against the column list, so the multi-column
vectorizer processes only the first four columns, paired with the
one-character sentinels N, o, n, e, and ignores every further column. -/
theorem C10_theorem (annot : Frame) (colnamel : List Str) (sepstr : Char) :
    vectorize_multiple_setvalued_default annot colnamel sepstr =
      vectorize_multiple_setvalued annot (colnamel.take 4)
        ["N".data, "o".data, "n".data, "e".data] sepstr := by
  unfold vectorize_multiple_setvalued_default vectorize_multiple_setvalued
  have h4 : pyStrChars ("None".data) = ["N".data, "o".data, "n".data, "e".data] := rfl
  rw [h4, zip_eq_zip_take colnamel (["N".data, "o".data, "n".data, "e".data])]
  rfl

/-- C1 counterexample: a (sample, source) pair whose file is ABSENT
makes the whole join abort with the uncaught FileNotFoundError instead
of being skipped: sample s1 has a well-formed file for source A, the
file for source B is missing, and get_multi_annotations errors rather
than producing a table with missing values in the B columns. -/
theorem C1_counterexample :
    get_multi_annotations ["A".data, "B".data] ["s1".data] cex1_fs =
      .error PyErr.fileNotFound :=
  rfl

/-- C2 counterexample: a non-missing text cell zzz matching no listed
category is NOT kept verbatim: the categorical conversion turns the
preserved raw value into a missing value because zzz is not among the
categories, and the final fillna replaces it with the fallback other. -/
theorem C2_counterexample :
    regularize_categ_cols [("g".data, ["A".data, "B".data, "C".data])] cex2_annot
        ("other".data) =
      .ok ⟨["g".data], [false], [(vk1, [some (Cell.str ("other".data))])]⟩ ∧
    ¬ "other".data = "zzz".data :=
  ⟨rfl, by decide⟩

/-- C9 counterexample: the well-formed variant-identity token
22:100:A>G:1 without the chr prefix is NOT stripped of its trailing
colon-1 suffix (the regex requires the chr prefix to match at all), so
it splits into four fields and the read raises ValueError instead of
indexing the row by (individual, tissue, 22, 100, A>G). -/
theorem C9_counterexample :
    read_TXT_per_annot ("ann".data) ("i".data) ("t".data) cex9_raw = .error PyErr.valueError ∧
    varidToKey ("i".data) ("t".data) ("22:100:A>G:1".data) = none :=
  ⟨rfl, rfl⟩

/-- isTextCell marks the cells the categorical-regularizer helper of
the source accepts without raising: missing cells and text cells. -/
def isTextCell : Option Cell → Bool
  | none => true
  | some (Cell.str _) => true
  | some _ => false

/-- categ_helper_pure is the pure value of categ_helper on a cell it
accepts (used to state what the exception-threading map computes). -/
def categ_helper_pure (categories : List Str) (old : Option Cell) : Option Str :=
  match old with
  | none => none
  | some (Cell.str s) =>
    match categories.find? (fun cat => decide (cat ∈ splitOnChar ':' s)) with
    | some cat => some cat
    | none => some s
  | _ => none

theorem categ_helper_ok (categories : List Str) (x : Option Cell)
    (hx : isTextCell x = true) :
    categ_helper categories x = .ok (categ_helper_pure categories x) := by
  match x with
  | none => rfl
  | some (Cell.str s) =>
    simp only [categ_helper, categ_helper_pure]
    cases categories.find? (fun cat => decide (cat ∈ splitOnChar ':' s)) <;> rfl
  | some (Cell.num _) => simp [isTextCell] at hx
  | some (Cell.int8 _) => simp [isTextCell] at hx
  | some (Cell.catInt8 _) => simp [isTextCell] at hx
  | some (Cell.bool _) => simp [isTextCell] at hx

theorem exceptMap_ok {α β : Type} {f : α → Except PyErr β} {g : α → β} :
    ∀ (l : List α), (∀ x ∈ l, f x = .ok (g x)) → exceptMap f l = .ok (l.map g) := by
  intro l h
  induction l with
  | nil => rfl
  | cons x xs ih =>
    unfold exceptMap
    rw [h x (List.mem_cons_self _ _), ih (fun y hy => h y (List.mem_cons_of_mem _ hy))]
    rfl

theorem find?_append_left {α : Type} {p : α → Bool} {l₁ : List α} (l₂ : List α) {a : α}
    (h : l₁.find? p = some a) : (l₁ ++ l₂).find? p = some a := by
  induction l₁ with
  | nil => simp at h
  | cons x xs ih =>
    rw [List.cons_append]
    cases hpx : p x with
    | true =>
      simp only [List.find?_cons, hpx] at h ⊢
      exact h
    | false =>
      simp only [List.find?_cons, hpx] at h ⊢
      exact ih h

theorem regularize_col_ok (cats0 : List Str) (nafill : Str) (cells : List (Option Cell))
    (hall : ∀ x ∈ cells, isTextCell x = true)
    (hnodup : (cats0 ++ ["other".data]).Nodup)
    (hfill : nafill ∈ cats0 ++ ["other".data]) :
    regularize_col cats0 nafill cells =
      .ok (((cells.map (categ_helper_pure (cats0 ++ ["other".data]))).map (fun x =>
        match x with
        | some v => if v ∈ cats0 ++ ["other".data] then some v else none
        | none => none)).map (fun x => some (Cell.str (x.getD nafill)))) := by
  unfold regularize_col
  rw [exceptMap_ok cells (fun x hx => categ_helper_ok _ x (hall x hx))]
  dsimp only
  rw [if_neg (fun hc => hc hnodup), if_neg (fun hc => hc hfill)]

/-- C4: for every non-missing text cell at least one of whose
colon-split tokens is a listed category, the Categorical Regularizer
outputs the highest-priority listed category occurring among the
tokens (the find over the priority-ordered list), under the
well-formedness conditions that all cells of the column are text or
missing, the extended category list is duplicate-free, and the fill
value is a category. -/
theorem C4_theorem (cats0 : List Str) (nafill : Str) (cells : List (Option Cell))
    (i : Nat) (s : Str) (cat : Str)
    (hall : ∀ x ∈ cells, isTextCell x = true)
    (hcell : cells[i]? = some (some (Cell.str s)))
    (hfind : cats0.find? (fun c => decide (c ∈ splitOnChar ':' s)) = some cat)
    (hnodup : (cats0 ++ ["other".data]).Nodup)
    (hfill : nafill ∈ cats0 ++ ["other".data]) :
    ∃ out, regularize_col cats0 nafill cells = .ok out ∧
      out[i]? = some (some (Cell.str cat)) := by
  refine ⟨_, regularize_col_ok cats0 nafill cells hall hnodup hfill, ?_⟩
  have hfind2 : (cats0 ++ ["other".data]).find? (fun c => decide (c ∈ splitOnChar ':' s)) =
      some cat := find?_append_left _ hfind
  have hmem : cat ∈ cats0 ++ ["other".data] :=
    List.mem_append_left _ (List.mem_of_find?_eq_some hfind)
  rw [List.getElem?_map, List.getElem?_map, List.getElem?_map, hcell]
  simp only [Option.map_some, Option.map_some']
  have hd : cat ∈ cats0 ∨ cat = "other".data := by simpa using hmem
  simp [categ_helper_pure, hfind2, hd]

/-- C2 amended: a non-missing text cell none of whose tokens matches
any category of the extended list, and whose raw value is not itself a
category, comes out as the fill value, not verbatim: the scan keeps
the raw value, but the categorical conversion makes it missing and
fillna writes nafillval. -/
theorem C2_theorem (cats0 : List Str) (nafill : Str) (cells : List (Option Cell))
    (i : Nat) (s : Str)
    (hall : ∀ x ∈ cells, isTextCell x = true)
    (hcell : cells[i]? = some (some (Cell.str s)))
    (hfind : (cats0 ++ ["other".data]).find? (fun c => decide (c ∈ splitOnChar ':' s)) = none)
    (hraw : ¬ s ∈ cats0 ++ ["other".data])
    (hnodup : (cats0 ++ ["other".data]).Nodup)
    (hfill : nafill ∈ cats0 ++ ["other".data]) :
    ∃ out, regularize_col cats0 nafill cells = .ok out ∧
      out[i]? = some (some (Cell.str nafill)) := by
  refine ⟨_, regularize_col_ok cats0 nafill cells hall hnodup hfill, ?_⟩
  rw [List.getElem?_map, List.getElem?_map, List.getElem?_map, hcell]
  have hd : ¬ (s ∈ cats0 ∨ s = "other".data) := by simpa using hraw
  simp [categ_helper_pure, hfind, hd]

/-- C4 witness: with categories A, B, C and the cell B:A the
regularizer outputs A, the highest-priority listed category among the
tokens. -/
theorem C4_witness :
    ∃ out, regularize_col ["A".data, "B".data, "C".data] ("other".data)
        [some (Cell.str ("B:A".data))] = .ok out ∧
      out[0]? = some (some (Cell.str ("A".data))) :=
  C4_theorem ["A".data, "B".data, "C".data] ("other".data) [some (Cell.str ("B:A".data))]
    0 ("B:A".data) ("A".data) (by decide) (by decide) (by decide) (by decide) (by decide)

/-- C2 witness: with categories A, B, C and the unmatched cell zzz the
regularizer outputs the fill value other. -/
theorem C2_witness :
    ∃ out, regularize_col ["A".data, "B".data, "C".data] ("other".data)
        [some (Cell.str ("zzz".data))] = .ok out ∧
      out[0]? = some (some (Cell.str ("other".data))) :=
  C2_theorem ["A".data, "B".data, "C".data] ("other".data) [some (Cell.str ("zzz".data))]
    0 ("zzz".data) (by decide) (by decide) (by decide) (by decide) (by decide) (by decide)

theorem singleton_of_map_fst {l : List (VariantKey × List (Option Cell))} {d : VariantKey}
    (h : l.map Prod.fst = [d]) : ∃ r, l = [r] ∧ r.1 = d := by
  cases l with
  | nil => simp at h
  | cons r t =>
    simp only [List.map_cons] at h
    injection h with h1 h2
    exact ⟨r, by rw [List.map_eq_nil_iff.mp h2], h1⟩

theorem filter_flatten_key {g : VariantKey → List (VariantKey × List (Option Cell))}
    (k : VariantKey) :
    ∀ (ds : List VariantKey), (∀ d ∈ ds, (g d).map Prod.fst = [d]) → ds.Nodup → k ∈ ds →
      ((ds.map g).flatten).filter (fun r => decide (r.1 = k)) = g k := by
  intro ds
  induction ds with
  | nil =>
    intro _ _ hk
    simp at hk
  | cons d ds ih =>
    intro hall hnd hk
    simp only [List.map_cons, List.flatten_cons, List.filter_append]
    by_cases hdk : d = k
    · subst hdk
      rcases singleton_of_map_fst (hall d (List.mem_cons_self _ _)) with ⟨r, hr, hrk⟩
      have h1 : (g d).filter (fun r => decide (r.1 = d)) = g d := by
        rw [hr]
        simp [hrk]
      have hnotin : ¬ d ∈ ds := (List.nodup_cons.mp hnd).1
      have h2 : ((ds.map g).flatten).filter (fun r => decide (r.1 = d)) = [] := by
        rw [List.filter_eq_nil_iff]
        intro a ha
        rcases List.mem_flatten.mp ha with ⟨l, hl, hal⟩
        rcases List.mem_map.mp hl with ⟨d2, hd2, rfl⟩
        rcases singleton_of_map_fst (hall d2 (List.mem_cons_of_mem _ hd2)) with ⟨r2, hr2, hrk2⟩
        rw [hr2] at hal
        have ha2 : a = r2 := by simpa using hal
        subst ha2
        simp only [hrk2, decide_eq_true_eq]
        exact fun he => hnotin (he ▸ hd2)
      rw [h1, h2, List.append_nil]
    · have hk2 : k ∈ ds := by
        rcases List.mem_cons.mp hk with h | h
        · exact absurd h.symm hdk
        · exact h
      rcases singleton_of_map_fst (hall d (List.mem_cons_self _ _)) with ⟨r, hr, hrk⟩
      have h1 : (g d).filter (fun r => decide (r.1 = k)) = [] := by
        rw [hr]
        simp [hrk, hdk]
      rw [h1, List.nil_append]
      exact ih (fun x hx => hall x (List.mem_cons_of_mem _ hx)) (List.nodup_cons.mp hnd).2 hk2

/-- C5: for every Variant Key carried by at least two rows, the
Duplicate Resolver keeps the column labels and dtypes unchanged and
produces EXACTLY ONE row for that key, in which every object-dtype
column holds the rows' values joined by the separator in their
original row order, and every other column holds the first row's
value. -/
theorem C5_theorem (annot : Frame) (sep : Str) (k : VariantKey)
    (l0 l1 : VariantKey × List (Option Cell)) (rest : List (VariantKey × List (Option Cell)))
    (hlines : annot.rows.filter (fun r => decide (r.1 = k)) = l0 :: l1 :: rest) :
    (annotation_duplicates annot sep).cols = annot.cols ∧
    (annotation_duplicates annot sep).dtypes = annot.dtypes ∧
    (annotation_duplicates annot sep).rows.filter (fun r => decide (r.1 = k)) =
      [(k, (List.range annot.cols.length).map (fun i =>
        if annot.dtypes.getD i false then
          some (Cell.str (joinSep sep
            ((l0 :: l1 :: rest).map (fun r => cellStr ((r.2[i]?).getD none)))))
        else (l0.2[i]?).getD none))] := by
  have hl0 : l0 ∈ annot.rows.filter (fun r => decide (r.1 = k)) := by
    rw [hlines]
    exact List.mem_cons_self _ _
  have hl1 : l1 ∈ annot.rows.filter (fun r => decide (r.1 = k)) := by
    rw [hlines]
    exact List.mem_cons_of_mem _ (List.mem_cons_self _ _)
  have hk0 : l0.1 = k := by simpa using (List.mem_filter.mp hl0).2
  have hk1 : l1.1 = k := by simpa using (List.mem_filter.mp hl1).2
  have hkmem : k ∈ annot.rows.map Prod.fst :=
    List.mem_map.mpr ⟨l0, (List.mem_filter.mp hl0).1, hk0⟩
  have hdup : hasDupIndex (annot.rows.map Prod.fst) = true := by
    simp only [hasDupIndex, decide_eq_true_eq]
    intro hnd
    have hsub : (l0 :: l1 :: rest).Sublist annot.rows := hlines ▸ List.filter_sublist _
    have hnd2 : ((l0 :: l1 :: rest).map Prod.fst).Nodup :=
      List.Nodup.sublist (List.Sublist.map _ hsub) hnd
    simp [hk0, hk1, List.nodup_cons] at hnd2
  have hout : annotation_duplicates annot sep =
      { annot with rows := (((annot.rows.map Prod.fst).dedup).map (do_var annot sep)).flatten } := by
    unfold annotation_duplicates
    rw [if_pos hdup]
  refine ⟨by rw [hout], by rw [hout], ?_⟩
  rw [hout]
  show ((((annot.rows.map Prod.fst).dedup).map (do_var annot sep)).flatten).filter
      (fun r => decide (r.1 = k)) = _
  rw [filter_flatten_key k ((annot.rows.map Prod.fst).dedup)
    (fun d hd => keys_do_var annot sep d (List.mem_dedup.mp hd))
    (List.nodup_dedup _) (List.mem_dedup.mpr hkmem)]
  unfold do_var
  rw [hlines]
  rw [if_neg (by simp)]
  dsimp only
  rw [hk0]

/-- cex5_annot is a two-column table in which the key vk1 carries two
rows: an object-dtype gene column and a numeric column. -/
def cex5_annot : Frame :=
  ⟨["g".data, "n".data], [true, false],
   [(vk1, [some (Cell.str ("a".data)), some (Cell.num 1)]),
    (vk1, [some (Cell.str ("b".data)), some (Cell.num 2)])]⟩

/-- C5 witness: on the duplicated key the resolver yields one row with
the object column joined a:b and the numeric column keeping the first
row value. -/
theorem C5_witness :
    (annotation_duplicates cex5_annot (":".data)).cols = cex5_annot.cols ∧
    (annotation_duplicates cex5_annot (":".data)).dtypes = cex5_annot.dtypes ∧
    (annotation_duplicates cex5_annot (":".data)).rows.filter (fun r => decide (r.1 = vk1)) =
      [(vk1, (List.range cex5_annot.cols.length).map (fun i =>
        if cex5_annot.dtypes.getD i false then
          some (Cell.str (joinSep (":".data)
            ([(vk1, [some (Cell.str ("a".data)), some (Cell.num 1)]),
              (vk1, [some (Cell.str ("b".data)), some (Cell.num 2)])].map
              (fun r => cellStr ((r.2[i]?).getD none)))))
        else (([some (Cell.str ("a".data)), some (Cell.num 1)] :
          List (Option Cell))[i]?).getD none))] :=
  C5_theorem cex5_annot (":".data) vk1
    (vk1, [some (Cell.str ("a".data)), some (Cell.num 1)])
    (vk1, [some (Cell.str ("b".data)), some (Cell.num 2)]) [] (by decide)

theorem splitOnChar_not_mem {sep : Char} {xs : Str} (h : ¬ sep ∈ xs) :
    splitOnChar sep xs = [xs] := by
  induction xs with
  | nil => rfl
  | cons c cs ih =>
    have hc : ¬ c = sep := fun he => h (he ▸ List.mem_cons_self c cs)
    have hcs : ¬ sep ∈ cs := fun hm => h (List.mem_cons_of_mem _ hm)
    simp only [splitOnChar]
    rw [if_neg hc, ih hcs]

theorem splitOnChar_append {sep : Char} {xs : Str} (ys : Str) (h : ¬ sep ∈ xs) :
    splitOnChar sep (xs ++ sep :: ys) = xs :: splitOnChar sep ys := by
  induction xs with
  | nil =>
    simp [splitOnChar]
  | cons c cs ih =>
    have hc : ¬ c = sep := fun he => h (he ▸ List.mem_cons_self c cs)
    have hcs : ¬ sep ∈ cs := fun hm => h (List.mem_cons_of_mem _ hm)
    simp only [List.cons_append, splitOnChar, List.append_eq]
    rw [if_neg hc, ih hcs]

theorem varid2index_chr (core : Str) (hcore : core ≠ []) :
    varid2index ("chr".data ++ core ++ ":1".data) = splitOnChar ':' core := by
  have hlen3 : ("chr".data).length = 3 := rfl
  have hlen2 : (":1".data).length = 2 := rfl
  have hltot : ("chr".data ++ core ++ ":1".data).length = core.length + 5 := by
    have ha := List.length_append ("chr".data ++ core) (":1".data)
    have hb := List.length_append ("chr".data) core
    omega
  unfold varid2index
  have h1 : ("chr".data ++ core ++ ":1".data).take 3 = "chr".data := by
    rw [List.append_assoc, ← hlen3]
    exact List.take_left _ _
  have h2 : ("chr".data ++ core ++ ":1".data).drop
      (("chr".data ++ core ++ ":1".data).length - 2) = ":1".data := by
    have he : ("chr".data ++ core ++ ":1".data).length - 2 = ("chr".data ++ core).length := by
      have hb := List.length_append ("chr".data) core
      omega
    rw [he]
    exact List.drop_left _ _
  have h3 : 6 ≤ ("chr".data ++ core ++ ":1".data).length := by
    rw [hltot]
    have := List.length_pos.mpr hcore
    omega
  rw [if_pos ⟨h1, h2, h3⟩]
  have h4 : ("chr".data ++ core ++ ":1".data).drop 3 = core ++ ":1".data := by
    rw [List.append_assoc, ← hlen3]
    exact List.drop_left _ _
  have h5 : ("chr".data ++ core ++ ":1".data).length - 5 = core.length := by
    omega
  rw [h4, h5, List.take_left]

/-- C9 amended: for a variant-identity token with the REQUIRED chr
prefix, of shape chr CHROM : POS : MUTATION : 1 with colon-free
fields and an int64-parsable POS, the reader strips the prefix and
the trailing suffix, indexes the single row by the Variant Key
(individual, tissue, CHROM, POS, MUTATION) and drops the
identity-derived columns, prefixing the kept columns with the
annotation-source name. -/
theorem C9_theorem (annotname indivID tissue c p m : Str) (n : Int)
    (featNames : List Str) (featDtypes : List Bool) (cells : List (Option Cell))
    (hc : ¬ ':' ∈ c) (hp : ¬ ':' ∈ p) (hm : ¬ ':' ∈ m)
    (hn : strToInt? p = some n) :
    read_TXT_per_annot annotname indivID tissue
      ⟨["chr".data ++ (c ++ ':' :: (p ++ ':' :: m)) ++ ":1".data],
       featNames, featDtypes, [cells]⟩ =
      .ok ⟨(featNames.filter keepCol).map (fun cc => annotname ++ "_".data ++ cc),
           ((featNames.zip featDtypes).filter (fun q => keepCol q.1)).map Prod.snd,
           [(⟨indivID, tissue, c, n, m⟩,
             ((featNames.zip cells).filter (fun q => keepCol q.1)).map Prod.snd)]⟩ := by
  have hcore : (c ++ ':' :: (p ++ ':' :: m)) ≠ [] := by
    intro he
    rcases List.append_eq_nil.mp he with ⟨_, h2⟩
    exact List.cons_ne_nil _ _ h2
  have hsplit : splitOnChar ':' (c ++ ':' :: (p ++ ':' :: m)) = [c, p, m] := by
    rw [splitOnChar_append _ hc, splitOnChar_append _ hp, splitOnChar_not_mem hm]
  have hv : varidToKey indivID tissue
      ("chr".data ++ (c ++ ':' :: (p ++ ':' :: m)) ++ ":1".data) =
      some ⟨indivID, tissue, c, n, m⟩ := by
    unfold varidToKey
    rw [varid2index_chr _ hcore, hsplit]
    dsimp only
    rw [hn]
  have hv2 : varidToKey indivID tissue
      ('c' :: 'h' :: 'r' :: (c ++ ':' :: (p ++ ':' :: (m ++ [':', '1'])))) =
      some ⟨indivID, tissue, c, n, m⟩ := by simpa using hv
  simp [read_TXT_per_annot, hv2]

/-- C9 witness: the token chr22:100:A>G:1 is read into the key with
chromosome 22, position 100, mutation A>G, with the identity columns
dropped and the kept column renamed with the source name. -/
theorem C9_witness :
    read_TXT_per_annot ("ann".data) ("i".data) ("t".data)
      ⟨["chr".data ++ ("22".data ++ ':' :: ("100".data ++ ':' :: "A>G".data)) ++ ":1".data],
       ["near".data], [true], [[some (Cell.str ("x".data))]]⟩ =
      .ok ⟨((["near".data].filter keepCol).map (fun cc => "ann".data ++ "_".data ++ cc)),
           ((["near".data].zip [true]).filter (fun q => keepCol q.1)).map Prod.snd,
           [(⟨"i".data, "t".data, "22".data, 100, "A>G".data⟩,
             ((["near".data].zip [some (Cell.str ("x".data))]).filter
               (fun q => keepCol q.1)).map Prod.snd)]⟩ :=
  C9_theorem ("ann".data) ("i".data) ("t".data) ("22".data) ("100".data) ("A>G".data) 100
    ["near".data] [true] [some (Cell.str ("x".data))]
    (by decide) (by decide) (by decide) (by decide)

theorem idxOf?_getElem {c : Str} : ∀ {l : List Str} {i : Nat},
    idxOf? c l = some i → l[i]? = some c := by
  intro l
  induction l with
  | nil =>
    intro i h
    simp [idxOf?] at h
  | cons x xs ih =>
    intro i h
    simp only [idxOf?] at h
    by_cases hx : x = c
    · rw [if_pos hx] at h
      injection h with h
      subst h
      simp [hx]
    · rw [if_neg hx] at h
      cases hj : idxOf? c xs with
      | none =>
        rw [hj] at h
        simp at h
      | some j =>
        rw [hj] at h
        simp only [Option.map_some'] at h
        injection h with h
        subst h
        simp only [List.getElem?_cons_succ]
        exact ih hj

theorem idxOf?_lt {c : Str} {l : List Str} {i : Nat} (h : idxOf? c l = some i) :
    i < l.length :=
  (List.getElem?_eq_some.mp (idxOf?_getElem h)).1

theorem idxOf?_of_mem {c : Str} : ∀ {l : List Str}, c ∈ l → ∃ i, idxOf? c l = some i := by
  intro l
  induction l with
  | nil =>
    intro h
    simp at h
  | cons x xs ih =>
    intro h
    by_cases hx : x = c
    · exact ⟨0, by simp [idxOf?, hx]⟩
    · have hc : c ∈ xs := by
        rcases List.mem_cons.mp h with h1 | h1
        · exact absurd h1.symm hx
        · exact h1
      rcases ih hc with ⟨j, hj⟩
      exact ⟨j + 1, by simp [idxOf?, hx, hj]⟩

theorem zipWith_set_map_fst :
    ∀ (rows : List (VariantKey × List (Option Cell))) (vals : List (Option Cell)) (i : Nat),
      vals.length = rows.length →
      (List.zipWith (fun r v => (r.1, r.2.set i v)) rows vals).map Prod.fst =
        rows.map Prod.fst := by
  intro rows
  induction rows with
  | nil =>
    intro vals i h
    simp
  | cons r rs ih =>
    intro vals i h
    cases vals with
    | nil => simp at h
    | cons v vs =>
      simp only [List.zipWith_cons_cons, List.map_cons]
      rw [ih vs i (by simpa using h)]

theorem zipWith_set_extract_self :
    ∀ (rows : List (VariantKey × List (Option Cell))) (vals : List (Option Cell)) (i : Nat),
      (∀ r ∈ rows, i < r.2.length) → vals.length = rows.length →
      (List.zipWith (fun r v => (r.1, r.2.set i v)) rows vals).map
        (fun r => (r.2[i]?).getD none) = vals := by
  intro rows
  induction rows with
  | nil =>
    intro vals i _ h
    cases vals with
    | nil => rfl
    | cons v vs => simp at h
  | cons r rs ih =>
    intro vals i hlt h
    cases vals with
    | nil => simp at h
    | cons v vs =>
      simp only [List.zipWith_cons_cons, List.map_cons]
      rw [List.getElem?_set_self (hlt r (List.mem_cons_self _ _))]
      rw [ih vs i (fun r2 hr2 => hlt r2 (List.mem_cons_of_mem _ hr2)) (by simpa using h)]
      rfl

theorem zipWith_set_extract_other :
    ∀ (rows : List (VariantKey × List (Option Cell))) (vals : List (Option Cell)) (i j : Nat),
      ¬ i = j → vals.length = rows.length →
      (List.zipWith (fun r v => (r.1, r.2.set i v)) rows vals).map
        (fun r => (r.2[j]?).getD none) = rows.map (fun r => (r.2[j]?).getD none) := by
  intro rows
  induction rows with
  | nil =>
    intro vals i j _ _
    simp
  | cons r rs ih =>
    intro vals i j hij h
    cases vals with
    | nil => simp at h
    | cons v vs =>
      simp only [List.zipWith_cons_cons, List.map_cons]
      rw [List.getElem?_set_ne hij]
      rw [ih vs i j hij (by simpa using h)]

theorem zipWith_set_wf :
    ∀ (rows : List (VariantKey × List (Option Cell))) (vals : List (Option Cell)) (i : Nat)
      (L : Nat), (∀ r ∈ rows, r.2.length = L) →
      ∀ r2 ∈ List.zipWith (fun r v => (r.1, r.2.set i v)) rows vals, r2.2.length = L := by
  intro rows
  induction rows with
  | nil =>
    intro vals i L _ r2 hr2
    simp at hr2
  | cons r rs ih =>
    intro vals i L hL r2 hr2
    cases vals with
    | nil => simp at hr2
    | cons v vs =>
      simp only [List.zipWith_cons_cons] at hr2
      rcases List.mem_cons.mp hr2 with h1 | h1
      · subst h1
        simp only [List.length_set]
        exact hL r (List.mem_cons_self _ _)
      · exact ih vs i L (fun r3 hr3 => hL r3 (List.mem_cons_of_mem _ hr3)) r2 h1

theorem setColumn_cols (t : Frame) (c : Str) (vals : List (Option Cell)) (io : Bool)
    {i : Nat} (hidx : idxOf? c t.cols = some i) :
    (t.setColumn c vals io).cols = t.cols := by
  unfold Frame.setColumn
  rw [hidx]

theorem setColumn_keys (t : Frame) (c : Str) (vals : List (Option Cell)) (io : Bool)
    {i : Nat} (hidx : idxOf? c t.cols = some i) (hlen : vals.length = t.rows.length) :
    (t.setColumn c vals io).rows.map Prod.fst = t.rows.map Prod.fst := by
  unfold Frame.setColumn
  rw [hidx]
  exact zipWith_set_map_fst t.rows vals i hlen

theorem setColumn_wf (t : Frame) (c : Str) (vals : List (Option Cell)) (io : Bool)
    {i : Nat} (hidx : idxOf? c t.cols = some i) (hwf : t.wf) :
    (t.setColumn c vals io).wf := by
  intro r2 hr2
  rw [setColumn_cols t c vals io hidx]
  unfold Frame.setColumn at hr2
  rw [hidx] at hr2
  exact zipWith_set_wf t.rows vals i t.cols.length hwf r2 hr2

theorem setColumn_col?_self (t : Frame) (c : Str) (vals : List (Option Cell)) (io : Bool)
    {i : Nat} (hidx : idxOf? c t.cols = some i) (hwf : t.wf)
    (hlen : vals.length = t.rows.length) :
    Frame.col? (t.setColumn c vals io) c = some vals := by
  have hlt : i < t.cols.length := idxOf?_lt hidx
  unfold Frame.setColumn Frame.col?
  rw [hidx]
  dsimp only
  rw [hidx]
  dsimp only
  rw [zipWith_set_extract_self t.rows vals i
    (fun r hr => by rw [hwf r hr]; exact hlt) hlen]

theorem setColumn_col?_other (t : Frame) (c c2 : Str) (vals : List (Option Cell)) (io : Bool)
    {i : Nat} (hidx : idxOf? c t.cols = some i) (hne : ¬ c2 = c)
    (hlen : vals.length = t.rows.length) :
    Frame.col? (t.setColumn c vals io) c2 = Frame.col? t c2 := by
  unfold Frame.setColumn Frame.col?
  rw [hidx]
  dsimp only
  cases hj : idxOf? c2 t.cols with
  | none => rfl
  | some j =>
    have hij : ¬ i = j := by
      intro he
      subst he
      have h1 := idxOf?_getElem hidx
      have h2 := idxOf?_getElem hj
      rw [h1] at h2
      injection h2 with h2
      exact hne h2.symm
    dsimp only
    rw [zipWith_set_extract_other t.rows vals i j hij hlen]

theorem find?_map_snd {A B : Type} (l : List (VariantKey × A)) (f : VariantKey × A → B)
    (k : VariantKey) :
    (l.map (fun r => (r.1, f r))).find? (fun r => decide (r.1 = k)) =
      (l.find? (fun r => decide (r.1 = k))).map (fun r => (r.1, f r)) := by
  induction l with
  | nil => rfl
  | cons r rs ih =>
    simp only [List.map_cons, List.find?_cons]
    by_cases hr : r.1 = k
    · simp [hr]
    · rw [decide_eq_false hr]
      exact ih

theorem cellRowAt_reindexRow (oldCols : List Str) (cells : List (Option Cell))
    (nc : List Str) (c : Str) {j : Nat} (hj : idxOf? c nc = some j) :
    cellRowAt nc (reindexRow oldCols cells nc) c = cellRowAt oldCols cells c := by
  unfold cellRowAt reindexRow
  rw [hj]
  dsimp only
  rw [List.getElem?_map, idxOf?_getElem hj]
  dsimp only [Option.map_some', Option.getD_some]

theorem cellAt_reindexColumns (t : Frame) (nc : List Str) (k : VariantKey) (c : Str)
    {j : Nat} (hj : idxOf? c nc = some j) :
    cellAt (t.reindexColumns nc) k c = cellAt t k c := by
  unfold cellAt Frame.reindexColumns
  dsimp only
  rw [find?_map_snd t.rows (fun r => reindexRow t.cols r.2 nc) k]
  cases hf : t.rows.find? (fun r => decide (r.1 = k)) with
  | none => rfl
  | some r =>
    dsimp only [Option.map_some']
    exact cellRowAt_reindexRow t.cols r.2 nc c hj

theorem keys_reindexIndex (t : Frame) (ks : List VariantKey) :
    (t.reindexIndex ks).rows.map Prod.fst = ks := by
  unfold Frame.reindexIndex
  dsimp only
  rw [List.map_map]
  have h : ∀ k ∈ ks, (Prod.fst ∘ fun k =>
      match t.rows.find? (fun r => decide (r.1 = k)) with
      | some r => (k, r.2)
      | none => (k, List.replicate t.cols.length none)) k = id k := by
    intro k _
    simp only [Function.comp_apply, id_eq]
    cases t.rows.find? (fun r => decide (r.1 = k)) <;> rfl
  rw [List.map_congr_left h, List.map_id]

theorem col?_reindexIndex (t : Frame) (ks : List VariantKey) (c : Str)
    {i : Nat} (hi : idxOf? c t.cols = some i) :
    Frame.col? (t.reindexIndex ks) c = some (ks.map (fun k => cellAt t k c)) := by
  unfold Frame.col? Frame.reindexIndex
  dsimp only
  rw [hi]
  dsimp only
  rw [List.map_map]
  congr 1
  apply List.map_congr_left
  intro k _
  cases hf : t.rows.find? (fun r => decide (r.1 = k)) with
  | none =>
    simp only [Function.comp_apply, hf]
    rw [List.getElem?_replicate]
    unfold cellAt
    rw [hf]
    by_cases hlt : i < t.cols.length <;> simp [hlt]
  | some r =>
    simp only [Function.comp_apply, hf]
    unfold cellAt cellRowAt
    rw [hf, hi]

theorem wf_reindexColumns (t : Frame) (nc : List Str) : (t.reindexColumns nc).wf := by
  intro r hr
  unfold Frame.reindexColumns at hr
  dsimp only at hr
  rcases List.mem_map.mp hr with ⟨r0, _, rfl⟩
  show (reindexRow t.cols r0.2 nc).length = (t.reindexColumns nc).cols.length
  simp [reindexRow, Frame.reindexColumns]

theorem wf_reindexIndex (t : Frame) (ks : List VariantKey) (hwf : t.wf) :
    (t.reindexIndex ks).wf := by
  intro r hr
  unfold Frame.reindexIndex at hr
  dsimp only at hr
  rcases List.mem_map.mp hr with ⟨k, _, rfl⟩
  cases hf : t.rows.find? (fun r => decide (r.1 = k)) with
  | none => simp [hf, List.length_replicate, Frame.reindexIndex]
  | some r0 =>
    simp only [hf]
    exact hwf r0 (List.mem_of_find?_eq_some hf)

theorem mem_extended_columns {c : Str} {columns : List Str} (cols2insert : List Str)
    (sfx : Str) (h : c ∈ columns) :
    c ∈ extended_columns columns cols2insert sfx := by
  unfold extended_columns
  rw [List.mem_flatten]
  refine ⟨if c ∈ cols2insert then [c, c ++ sfx] else [c], List.mem_map.mpr ⟨c, h, rfl⟩, ?_⟩
  by_cases hc : c ∈ cols2insert <;> simp [hc]

theorem mem_extended_columns_sfx {c : Str} {columns : List Str} {cols2insert : List Str}
    (sfx : Str) (h : c ∈ columns) (h2 : c ∈ cols2insert) :
    c ++ sfx ∈ extended_columns columns cols2insert sfx := by
  unfold extended_columns
  rw [List.mem_flatten]
  exact ⟨[c, c ++ sfx], List.mem_map.mpr ⟨c, h, by rw [if_pos h2]⟩, by simp⟩

theorem cellAt_of_not_mem (t : Frame) (k : VariantKey) (c : Str)
    (h : ¬ k ∈ t.rows.map Prod.fst) : cellAt t k c = none := by
  have hf : t.rows.find? (fun r => decide (r.1 = k)) = none :=
    List.find?_eq_none.mpr (fun r hr => by
      simp only [decide_eq_true_eq]
      exact fun he => h (List.mem_map.mpr ⟨r, hr, he⟩))
  unfold cellAt
  rw [hf]

theorem bin_fold (sfx : Str) (dc : Bool) :
    ∀ (cs : List Str) (val : Frame),
      cs.Nodup →
      (∀ c ∈ cs, c ∈ val.cols) →
      (∀ c ∈ cs, c ++ sfx ∈ val.cols) →
      (∀ c ∈ cs, ∀ c2 ∈ cs, ¬ c ++ sfx = c2) →
      val.wf →
      ∃ out, exceptFoldl (bin_do_col sfx dc) val cs = .ok out ∧
        out.cols = val.cols ∧
        out.rows.map Prod.fst = val.rows.map Prod.fst ∧
        (∀ c ∈ cs, Frame.col? out (c ++ sfx) =
          (Frame.col? val c).map (fun cells =>
            cells.map (fun x => some (binInd dc x.isNone)))) ∧
        (∀ c2, (∀ c ∈ cs, ¬ c2 = c ++ sfx) → Frame.col? out c2 = Frame.col? val c2) := by
  intro cs
  induction cs with
  | nil =>
    intro val _ _ _ _ _
    exact ⟨val, rfl, rfl, rfl, by simp, fun c2 _ => rfl⟩
  | cons c cs ih =>
    intro val hnd hmem hmsfx hnosfx hwf
    rcases idxOf?_of_mem (hmem c (List.mem_cons_self _ _)) with ⟨i, hi⟩
    rcases idxOf?_of_mem (hmsfx c (List.mem_cons_self _ _)) with ⟨is, his⟩
    have hcol : Frame.col? val c = some (val.rows.map (fun r => (r.2[i]?).getD none)) := by
      unfold Frame.col?
      rw [hi]
    set cells := val.rows.map (fun r => (r.2[i]?).getD none) with hcells
    set vals := cells.map (fun x => some (binInd dc x.isNone)) with hvals
    have hstep : bin_do_col sfx dc val c = .ok (val.setColumn (c ++ sfx) vals false) := by
      unfold bin_do_col
      rw [hcol]
    have hlen : vals.length = val.rows.length := by
      rw [hvals, hcells]
      simp
    set val2 := val.setColumn (c ++ sfx) vals false with hval2
    have hcols2 : val2.cols = val.cols := setColumn_cols val _ vals false his
    have hkeys2 : val2.rows.map Prod.fst = val.rows.map Prod.fst :=
      setColumn_keys val _ vals false his hlen
    have hwf2 : val2.wf := setColumn_wf val _ vals false his hwf
    have hcolself : Frame.col? val2 (c ++ sfx) = some vals :=
      setColumn_col?_self val _ vals false his hwf hlen
    have hcolother : ∀ c2, ¬ c2 = c ++ sfx → Frame.col? val2 c2 = Frame.col? val c2 :=
      fun c2 hne => setColumn_col?_other val _ c2 vals false his hne hlen
    have hnd' := (List.nodup_cons.mp hnd).2
    have hcnotin := (List.nodup_cons.mp hnd).1
    have hmem' : ∀ c3 ∈ cs, c3 ∈ val2.cols := fun c3 h3 => by
      rw [hcols2]
      exact hmem c3 (List.mem_cons_of_mem _ h3)
    have hmsfx' : ∀ c3 ∈ cs, c3 ++ sfx ∈ val2.cols := fun c3 h3 => by
      rw [hcols2]
      exact hmsfx c3 (List.mem_cons_of_mem _ h3)
    have hnosfx' : ∀ c3 ∈ cs, ∀ c4 ∈ cs, ¬ c3 ++ sfx = c4 := fun c3 h3 c4 h4 =>
      hnosfx c3 (List.mem_cons_of_mem _ h3) c4 (List.mem_cons_of_mem _ h4)
    rcases ih val2 hnd' hmem' hmsfx' hnosfx' hwf2 with
      ⟨out, hfold, hocols, hokeys, hoind, hounch⟩
    refine ⟨out, ?_, by rw [hocols, hcols2], by rw [hokeys, hkeys2], ?_, ?_⟩
    · simp only [exceptFoldl]
      rw [hstep]
      exact hfold
    · intro c3 h3
      rcases List.mem_cons.mp h3 with h3 | h3
      · subst h3
        have hun : Frame.col? out (c3 ++ sfx) = Frame.col? val2 (c3 ++ sfx) := by
          apply hounch
          intro c4 h4 he
          have hc4 : c3 = c4 := List.append_cancel_right he
          exact hcnotin (hc4 ▸ h4)
        rw [hun, hcolself, hcol]
        rfl
      · have hne : ¬ c3 = c ++ sfx := fun he =>
          hnosfx c (List.mem_cons_self _ _) c3 (List.mem_cons_of_mem _ h3) he.symm
        rw [hoind c3 h3, hcolother c3 hne]
    · intro c2 h2
      rw [hounch c2 (fun c4 h4 => h2 c4 (List.mem_cons_of_mem _ h4)),
        hcolother c2 (h2 c (List.mem_cons_self _ _))]

theorem col?_mid (annot : Frame) (ext : List Str) (ks : List VariantKey) (c : Str)
    {j : Nat} (hj : idxOf? c ext = some j) :
    Frame.col? ((annot.reindexColumns ext).reindexIndex ks) c =
      some (ks.map (fun k => cellAt annot k c)) := by
  have h1 : Frame.col? ((annot.reindexColumns ext).reindexIndex ks) c =
      some (ks.map (fun k => cellAt (annot.reindexColumns ext) k c)) :=
    col?_reindexIndex (annot.reindexColumns ext) ks c hj
  rw [h1]
  congr 1
  apply List.map_congr_left
  intro k _
  exact cellAt_reindexColumns annot ext k c hj

/-- C3: under the well-formedness conditions that the selected columns
are distinct columns of the table, that no suffixed companion label is
itself selected, and that no companion label is already a column, the
Binarizer succeeds and (1) its output rows are exactly the Reference
Call Set index in its order, (2) every indicator column holds, per
call-set key, np.int8 of the is-missing flag of the selected column
(wrapped in pd.Categorical when configured), so (3) every key absent
from the pre-reindex table has indicator one and (4) every key whose
value is non-missing after reindexing has indicator zero. -/
theorem C3_theorem (cols2binarize : List Str) (annot calls : Frame) (dc : Bool)
    (hnodup : cols2binarize.Nodup)
    (hsub : ∀ c ∈ cols2binarize, c ∈ annot.cols)
    (hnosfx : ∀ c ∈ cols2binarize, ∀ c2 ∈ cols2binarize, ¬ c ++ "_bin".data = c2)
    (_hfresh : ∀ c ∈ cols2binarize, ¬ c ++ "_bin".data ∈ annot.cols) :
    ∃ out, binarize_cols cols2binarize annot calls ("_bin".data) dc = .ok out ∧
      out.rows.map Prod.fst = calls.rows.map Prod.fst ∧
      (∀ c ∈ cols2binarize, Frame.col? out (c ++ "_bin".data) =
        some ((calls.rows.map Prod.fst).map
          (fun k => some (binInd dc (cellAt annot k c).isNone)))) ∧
      (∀ c ∈ cols2binarize, ∀ (j : Nat) (k : VariantKey), (calls.rows.map Prod.fst)[j]? = some k →
        ¬ k ∈ annot.rows.map Prod.fst →
        (Frame.col? out (c ++ "_bin".data)).bind (fun cells : List (Option Cell) => cells[j]?) =
          some (some (binInd dc true))) ∧
      (∀ c ∈ cols2binarize, ∀ (j : Nat) (k : VariantKey) (v : Cell), (calls.rows.map Prod.fst)[j]? = some k →
        cellAt annot k c = some v →
        (Frame.col? out (c ++ "_bin".data)).bind (fun cells : List (Option Cell) => cells[j]?) =
          some (some (binInd dc false))) := by
  have hext : ∀ c ∈ cols2binarize,
      c ∈ extended_columns annot.cols cols2binarize ("_bin".data) :=
    fun c hc => mem_extended_columns _ _ (hsub c hc)
  have hexts : ∀ c ∈ cols2binarize,
      c ++ "_bin".data ∈ extended_columns annot.cols cols2binarize ("_bin".data) :=
    fun c hc => mem_extended_columns_sfx _ (hsub c hc) hc
  rcases bin_fold ("_bin".data) dc cols2binarize
    ((annot.reindexColumns (extended_columns annot.cols cols2binarize ("_bin".data))).reindexIndex
      (calls.rows.map Prod.fst))
    hnodup (fun c hc => hext c hc) (fun c hc => hexts c hc) hnosfx
    (wf_reindexIndex _ _ (wf_reindexColumns _ _)) with
    ⟨out, hfold, hocols, hokeys, hoind, hounch⟩
  have hcolm : ∀ c ∈ cols2binarize,
      Frame.col? ((annot.reindexColumns
        (extended_columns annot.cols cols2binarize ("_bin".data))).reindexIndex
          (calls.rows.map Prod.fst)) c =
      some ((calls.rows.map Prod.fst).map (fun k => cellAt annot k c)) := by
    intro c hc
    rcases idxOf?_of_mem (hext c hc) with ⟨j, hj⟩
    exact col?_mid annot _ _ c hj
  have hchar : ∀ c ∈ cols2binarize, Frame.col? out (c ++ "_bin".data) =
      some ((calls.rows.map Prod.fst).map
        (fun k => some (binInd dc (cellAt annot k c).isNone))) := by
    intro c hc
    rw [hoind c hc, hcolm c hc]
    simp [List.map_map, Function.comp]
  refine ⟨out, hfold, by rw [hokeys]; exact keys_reindexIndex _ _, hchar, ?_, ?_⟩
  · intro c hc j k hjk habs
    rw [hchar c hc]
    show ((calls.rows.map Prod.fst).map
      (fun k => some (binInd dc (cellAt annot k c).isNone)))[j]? = some (some (binInd dc true))
    rw [List.getElem?_map, hjk]
    simp [cellAt_of_not_mem annot k c habs]
  · intro c hc j k v hjk hv
    rw [hchar c hc]
    show ((calls.rows.map Prod.fst).map
      (fun k => some (binInd dc (cellAt annot k c).isNone)))[j]? = some (some (binInd dc false))
    rw [List.getElem?_map, hjk]
    simp [hv]

/-- vk2 is a second sample variant key, absent from the test
annotation tables. -/
def vk2 : VariantKey := ⟨"i".data, "t".data, "1".data, 2, "A>G".data⟩

/-- cex3_annot is a one-column numeric annotation table holding only
the key vk1. -/
def cex3_annot : Frame := ⟨["x".data], [false], [(vk1, [some (Cell.num 5)])]⟩

/-- cex3_calls is a Reference Call Set whose index is vk2 then vk1;
vk2 is absent from cex3_annot. -/
def cex3_calls : Frame := ⟨[], [], [(vk2, []), (vk1, [])]⟩

/-- C3 witness: binarizing the column x of cex3_annot against
cex3_calls succeeds, reindexes to the call-set order vk2, vk1, marks
the absent key vk2 with indicator one and the covered key vk1 with
indicator zero. -/
theorem C3_witness :
    ∃ out, binarize_cols ["x".data] cex3_annot cex3_calls ("_bin".data) false = .ok out ∧
      out.rows.map Prod.fst = cex3_calls.rows.map Prod.fst ∧
      (∀ c ∈ ["x".data], Frame.col? out (c ++ "_bin".data) =
        some ((cex3_calls.rows.map Prod.fst).map
          (fun k => some (binInd false (cellAt cex3_annot k c).isNone)))) ∧
      (∀ c ∈ ["x".data], ∀ (j : Nat) (k : VariantKey),
        (cex3_calls.rows.map Prod.fst)[j]? = some k →
        ¬ k ∈ cex3_annot.rows.map Prod.fst →
        (Frame.col? out (c ++ "_bin".data)).bind
          (fun cells : List (Option Cell) => cells[j]?) =
          some (some (binInd false true))) ∧
      (∀ c ∈ ["x".data], ∀ (j : Nat) (k : VariantKey) (v : Cell),
        (cex3_calls.rows.map Prod.fst)[j]? = some k →
        cellAt cex3_annot k c = some v →
        (Frame.col? out (c ++ "_bin".data)).bind
          (fun cells : List (Option Cell) => cells[j]?) =
          some (some (binInd false false))) :=
  C3_theorem ["x".data] cex3_annot cex3_calls false
    (by decide) (by decide) (by decide) (by decide)

theorem unionCols_step_self (colsA : List Str) :
    colsA ++ colsA.filter (fun c => decide (¬ c ∈ colsA)) = colsA := by
  rw [List.filter_eq_nil_iff.mpr, List.append_nil]
  intro c hc
  simp [hc]

theorem foldl_union_const (colsA : List Str) :
    ∀ (ls : List (List Str)), (∀ l ∈ ls, l = colsA) →
      ls.foldl (fun acc cs => acc ++ cs.filter (fun c => decide (¬ c ∈ acc))) colsA = colsA := by
  intro ls
  induction ls with
  | nil =>
    intro _
    rfl
  | cons l ls ih =>
    intro hall
    simp only [List.foldl_cons]
    rw [hall l (List.mem_cons_self _ _), unionCols_step_self]
    exact ih (fun x hx => hall x (List.mem_cons_of_mem _ hx))

theorem unionCols_same (ls : List (List Str)) (colsA : List Str) (hne : ls ≠ [])
    (hall : ∀ l ∈ ls, l = colsA) : unionCols ls = colsA := by
  cases ls with
  | nil => exact absurd rfl hne
  | cons l ls' =>
    unfold unionCols
    simp only [List.foldl_cons]
    rw [hall l (List.mem_cons_self _ _)]
    have hfirst : ([] : List Str) ++ colsA.filter (fun c => decide (¬ c ∈ ([] : List Str))) =
        colsA := by simp
    rw [hfirst]
    exact foldl_union_const colsA ls' (fun x hx => hall x (List.mem_cons_of_mem _ hx))

theorem idxOf?_of_getElem {c : Str} :
    ∀ {l : List Str} {n : Nat}, l.Nodup → l[n]? = some c → idxOf? c l = some n := by
  intro l
  induction l with
  | nil =>
    intro n _ h
    simp at h
  | cons x xs ih =>
    intro n hnd h
    cases n with
    | zero =>
      rw [List.getElem?_cons_zero] at h
      injection h with h
      subst h
      simp [idxOf?]
    | succ m =>
      rw [List.getElem?_cons_succ] at h
      have hmem : c ∈ xs := by
        have hlt := (List.getElem?_eq_some.mp h).1
        have := List.getElem_mem hlt
        rw [(List.getElem?_eq_some.mp h).2] at this
        exact this
      have hxc : ¬ x = c := by
        intro he
        subst he
        exact (List.nodup_cons.mp hnd).1 hmem
      simp only [idxOf?, if_neg hxc]
      rw [ih (List.nodup_cons.mp hnd).2 h]
      rfl

theorem reindexRow_self (cols : List Str) (cells : List (Option Cell))
    (hnd : cols.Nodup) (hlen : cells.length = cols.length) :
    reindexRow cols cells cols = cells := by
  apply List.ext_getElem?
  intro n
  unfold reindexRow
  rw [List.getElem?_map]
  by_cases hn : n < cols.length
  · rw [List.getElem?_eq_getElem hn]
    simp only [Option.map_some']
    rw [idxOf?_of_getElem hnd (List.getElem?_eq_getElem hn)]
    dsimp only
    have hn2 : n < cells.length := by omega
    rw [List.getElem?_eq_getElem hn2]
    simp
  · have h1 : cols[n]? = none := List.getElem?_eq_none (by omega)
    have h2 : cells[n]? = none := List.getElem?_eq_none (by omega)
    rw [h1, h2]
    rfl

theorem concatRows_same (frames : List Frame) (colsA : List Str)
    (hne : frames ≠ []) (hcols : ∀ f ∈ frames, f.cols = colsA)
    (hwf : ∀ f ∈ frames, f.wf) (hnd : colsA.Nodup) :
    ∃ u, concatRows frames = .ok u ∧ u.cols = colsA ∧
      u.rows = (frames.map Frame.rows).flatten := by
  have hu : unionCols (frames.map Frame.cols) = colsA := by
    apply unionCols_same
    · exact fun h => hne (List.map_eq_nil_iff.mp h)
    · intro l hl
      rcases List.mem_map.mp hl with ⟨f, hf, rfl⟩
      exact hcols f hf
  unfold concatRows
  rw [if_neg (fun h => hne (List.isEmpty_iff.mp h))]
  refine ⟨_, rfl, hu, ?_⟩
  dsimp only
  congr 1
  apply List.map_congr_left
  intro f hf
  have hrows : ∀ r ∈ f.rows, (r.1, reindexRow f.cols r.2 (unionCols (frames.map Frame.cols)))
      = r := by
    intro r hr
    rw [hu, hcols f hf]
    rw [reindexRow_self colsA r.2 hnd (by rw [← hcols f hf]; exact hwf f hf r hr)]
  rw [List.map_congr_left hrows]
  exact List.map_id _

theorem find?_append_none {α : Type} {p : α → Bool} {l₁ : List α} (l₂ : List α)
    (h : l₁.find? p = none) : (l₁ ++ l₂).find? p = l₂.find? p := by
  induction l₁ with
  | nil => rfl
  | cons x xs ih =>
    rw [List.cons_append]
    cases hpx : p x with
    | true =>
      rw [List.find?_cons, hpx] at h
      simp at h
    | false =>
      rw [List.find?_cons, hpx] at h
      simp only [List.find?_cons, hpx]
      exact ih h

theorem find?_key_none (rows : List (VariantKey × List (Option Cell))) (k : VariantKey)
    (h : ¬ k ∈ rows.map Prod.fst) : rows.find? (fun r => decide (r.1 = k)) = none :=
  List.find?_eq_none.mpr (fun r hr => by
    simp only [decide_eq_true_eq]
    exact fun he => h (List.mem_map.mpr ⟨r, hr, he⟩))

theorem find?_flatten_first {g : Str → List (VariantKey × List (Option Cell))}
    (k₀ : VariantKey) (res : VariantKey × List (Option Cell)) :
    ∀ (ss : List Str) (s₀ : Str), s₀ ∈ ss →
      (g s₀).find? (fun r => decide (r.1 = k₀)) = some res →
      (∀ s ∈ ss, ¬ s = s₀ → (g s).find? (fun r => decide (r.1 = k₀)) = none) →
      ((ss.map g).flatten).find? (fun r => decide (r.1 = k₀)) = some res := by
  intro ss
  induction ss with
  | nil =>
    intro s₀ h
    simp at h
  | cons s ss ih =>
    intro s₀ hs₀ hfind hnone
    simp only [List.map_cons, List.flatten_cons]
    by_cases hss : s = s₀
    · subst hss
      exact find?_append_left _ hfind
    · rw [find?_append_none _ (hnone s (List.mem_cons_self _ _) hss)]
      have hs₀2 : s₀ ∈ ss := by
        rcases List.mem_cons.mp hs₀ with h | h
        · exact absurd h.symm hss
        · exact h
      exact ih s₀ hs₀2 hfind (fun s2 h2 => hnone s2 (List.mem_cons_of_mem _ h2))

theorem find?_keyed_map {A : Type} (keys : List VariantKey) (rowfn : VariantKey → A)
    (k₀ : VariantKey) (h : k₀ ∈ keys) :
    (keys.map (fun k => (k, rowfn k))).find? (fun r => decide (r.1 = k₀)) =
      some (k₀, rowfn k₀) := by
  induction keys with
  | nil => simp at h
  | cons k ks ih =>
    simp only [List.map_cons, List.find?_cons]
    by_cases hk : k = k₀
    · subst hk
      simp
    · rw [decide_eq_false hk]
      have hmem : k₀ ∈ ks := by
        rcases List.mem_cons.mp h with h1 | h1
        · exact absurd h1.symm hk
        · exact h1
      exact ih hmem

theorem filterMap_id_map_some {A : Type} (g : Str → A) (ss : List Str) :
    (ss.map (fun s => some (g s))).filterMap id = ss.map g := by
  induction ss with
  | nil => rfl
  | cons s ss ih => simp [List.filterMap_cons, ih]

theorem filterMap_id_map_if (tabB : Str → Frame) (s₀ : Str) (ss : List Str) :
    (ss.map (fun s => if s = s₀ then none else some (tabB s))).filterMap id =
      (ss.filter (fun s => decide (¬ s = s₀))).map tabB := by
  induction ss with
  | nil => rfl
  | cons s ss ih =>
    by_cases hs : s = s₀
    · simp [hs, List.filterMap_cons, ih]
    · simp [hs, List.filterMap_cons, ih]

theorem concatCols_pair (fA fB : Frame) (k₀ : VariantKey) (cells₀ : List (Option Cell))
    (hfindA : fA.rows.find? (fun r => decide (r.1 = k₀)) = some (k₀, cells₀))
    (hfindB : fB.rows.find? (fun r => decide (r.1 = k₀)) = none) :
    ∃ u, concatCols [fA, fB] = .ok u ∧ u.cols = fA.cols ++ fB.cols ∧
      u.rows.find? (fun r => decide (r.1 = k₀)) =
        some (k₀, cells₀ ++ List.replicate fB.cols.length none) := by
  unfold concatCols
  rw [if_neg (by simp)]
  refine ⟨_, rfl, by simp, ?_⟩
  dsimp only
  have hkmem : k₀ ∈ (([fA, fB].map (fun f => f.rows.map Prod.fst)).flatten).dedup := by
    rw [List.mem_dedup]
    apply List.mem_flatten.mpr
    refine ⟨fA.rows.map Prod.fst, by simp, ?_⟩
    exact List.mem_map.mpr ⟨(k₀, cells₀), List.mem_of_find?_eq_some hfindA, rfl⟩
  rw [find?_keyed_map _ _ _ hkmem]
  simp [hfindA, hfindB]

/-- C1 amended: a (sample, source) pair whose file is MALFORMED (its
parse raises ValueError) is skipped as an empty contribution, and the
Unified Annotation Table still contains the sample's rows contributed
by its other sources, with missing values exactly in the malformed
source's columns.  Here sample s0 has a malformed file for source B
and a well-formed one for source A: the join succeeds, the output
columns are the A columns followed by the B columns, and the row of
s0's key k0 holds its A cells followed by only-missing B cells.
An ABSENT file, by contrast, aborts the join (see the
counterexample): the try block catches only ValueError. -/
theorem C1_theorem
    (ss : List Str) (s₀ srcA srcB : Str) (fs : Str → Str → FileState)
    (tabA tabB : Str → Frame) (colsA colsB : List Str)
    (k₀ : VariantKey) (cells₀ : List (Option Cell))
    (hs₀ : s₀ ∈ ss)
    (hA : ∀ s ∈ ss, fs s srcA = .table (tabA s))
    (hAnodup : ∀ s ∈ ss, hasDupIndex ((tabA s).rows.map Prod.fst) = false)
    (hAcols : ∀ s ∈ ss, (tabA s).cols = colsA)
    (hAwf : ∀ s ∈ ss, (tabA s).wf)
    (hB0 : fs s₀ srcB = .malformed)
    (hB : ∀ s ∈ ss, ¬ s = s₀ → fs s srcB = .table (tabB s))
    (hBnodup : ∀ s ∈ ss, ¬ s = s₀ → hasDupIndex ((tabB s).rows.map Prod.fst) = false)
    (hBcols : ∀ s ∈ ss, ¬ s = s₀ → (tabB s).cols = colsB)
    (hBwf : ∀ s ∈ ss, ¬ s = s₀ → (tabB s).wf)
    (hsome : ∃ s₁, s₁ ∈ ss ∧ ¬ s₁ = s₀)
    (hndA : colsA.Nodup) (hndB : colsB.Nodup)
    (hfind₀ : (tabA s₀).rows.find? (fun r => decide (r.1 = k₀)) = some (k₀, cells₀))
    (hk₀A : ∀ s ∈ ss, ¬ s = s₀ → ¬ k₀ ∈ (tabA s).rows.map Prod.fst)
    (hk₀B : ∀ s ∈ ss, ¬ s = s₀ → ¬ k₀ ∈ (tabB s).rows.map Prod.fst) :
    ∃ u, get_multi_annotations [srcA, srcB] ss fs = .ok u ∧
      u.cols = colsA ++ colsB ∧
      u.rows.find? (fun r => decide (r.1 = k₀)) =
        some (k₀, cells₀ ++ List.replicate colsB.length none) := by
  have hgA : ∀ s ∈ ss, get_annot fs s srcA = .ok (some (tabA s)) := by
    intro s hs
    unfold get_annot
    rw [hA s hs]
    dsimp only
    rw [annotation_duplicates_of_nodup _ _ (hAnodup s hs)]
  have hmapA : exceptMap (fun s => get_annot fs s srcA) ss =
      .ok (ss.map (fun s => some (tabA s))) := exceptMap_ok ss hgA
  have hssne : ss ≠ [] := List.ne_nil_of_mem hs₀
  rcases concatRows_same (ss.map tabA) colsA
      (fun h => hssne (List.map_eq_nil_iff.mp h))
      (fun f hf => by
        rcases List.mem_map.mp hf with ⟨s, hs, rfl⟩
        exact hAcols s hs)
      (fun f hf => by
        rcases List.mem_map.mp hf with ⟨s, hs, rfl⟩
        exact hAwf s hs)
      hndA with ⟨uA, hcA, hcAcols, hcArows⟩
  have hdoA : do_annotyp fs ss srcA = .ok uA := by
    unfold do_annotyp
    rw [hmapA]
    dsimp only
    rw [filterMap_id_map_some tabA ss]
    exact hcA
  have hgB : ∀ s ∈ ss, get_annot fs s srcB =
      .ok (if s = s₀ then none else some (tabB s)) := by
    intro s hs
    by_cases h : s = s₀
    · subst h
      unfold get_annot
      rw [hB0, if_pos rfl]
    · unfold get_annot
      rw [hB s hs h]
      dsimp only
      rw [annotation_duplicates_of_nodup _ _ (hBnodup s hs h), if_neg h]
  have hmapB : exceptMap (fun s => get_annot fs s srcB) ss =
      .ok (ss.map (fun s => if s = s₀ then none else some (tabB s))) := exceptMap_ok ss hgB
  rcases hsome with ⟨s₁, hs₁, hs₁ne⟩
  have hfilne : ss.filter (fun s => decide (¬ s = s₀)) ≠ [] :=
    List.ne_nil_of_mem (List.mem_filter.mpr ⟨hs₁, by simp [hs₁ne]⟩)
  have hmemfil : ∀ s ∈ ss.filter (fun s => decide (¬ s = s₀)), s ∈ ss ∧ ¬ s = s₀ := by
    intro s hsf
    have h := List.mem_filter.mp hsf
    exact ⟨h.1, by simpa using h.2⟩
  rcases concatRows_same ((ss.filter (fun s => decide (¬ s = s₀))).map tabB) colsB
      (fun h => hfilne (List.map_eq_nil_iff.mp h))
      (fun f hf => by
        rcases List.mem_map.mp hf with ⟨s, hs, rfl⟩
        rcases hmemfil s hs with ⟨h1, h2⟩
        exact hBcols s h1 h2)
      (fun f hf => by
        rcases List.mem_map.mp hf with ⟨s, hs, rfl⟩
        rcases hmemfil s hs with ⟨h1, h2⟩
        exact hBwf s h1 h2)
      hndB with ⟨uB, hcB, hcBcols, hcBrows⟩
  have hdoB : do_annotyp fs ss srcB = .ok uB := by
    unfold do_annotyp
    rw [hmapB]
    dsimp only
    rw [filterMap_id_map_if tabB s₀ ss]
    exact hcB
  have hmapAB : exceptMap (do_annotyp fs ss) [srcA, srcB] = .ok [uA, uB] := by
    simp only [exceptMap, hdoA, hdoB]
  have hfindA : uA.rows.find? (fun r => decide (r.1 = k₀)) = some (k₀, cells₀) := by
    have h1 : uA.rows = (ss.map (fun s => (tabA s).rows)).flatten := by
      rw [hcArows, List.map_map]
      rfl
    rw [h1]
    exact find?_flatten_first k₀ (k₀, cells₀) ss s₀ hs₀ hfind₀
      (fun s hs hne => find?_key_none _ _ (hk₀A s hs hne))
  have hfindB : uB.rows.find? (fun r => decide (r.1 = k₀)) = none := by
    have h1 : uB.rows = ((ss.filter (fun s => decide (¬ s = s₀))).map
        (fun s => (tabB s).rows)).flatten := by
      rw [hcBrows, List.map_map]
      rfl
    rw [h1]
    apply List.find?_eq_none.mpr
    intro r hr
    rcases List.mem_flatten.mp hr with ⟨l, hl, hrl⟩
    rcases List.mem_map.mp hl with ⟨s, hsf, rfl⟩
    rcases hmemfil s hsf with ⟨hins, hnes⟩
    simp only [decide_eq_true_eq]
    intro he
    exact hk₀B s hins hnes (List.mem_map.mpr ⟨r, hrl, he⟩)
  rcases concatCols_pair uA uB k₀ cells₀ hfindA hfindB with ⟨u, hcc, hucols, hufind⟩
  refine ⟨u, ?_, by rw [hucols, hcAcols, hcBcols], by rw [hufind, hcBcols]⟩
  unfold get_multi_annotations
  rw [hmapAB]
  exact hcc

/-- cw1_t1A is the source-A table of sample s1, holding the key vk1. -/
def cw1_t1A : Frame := ⟨["A_f".data], [true], [(vk1, [some (Cell.str ("x".data))])]⟩

/-- cw1_t2A is the source-A table of sample s2, holding the key vk2. -/
def cw1_t2A : Frame := ⟨["A_f".data], [true], [(vk2, [some (Cell.str ("y".data))])]⟩

/-- cw1_t2B is the source-B table of sample s2, holding the key vk2. -/
def cw1_t2B : Frame := ⟨["B_g".data], [true], [(vk2, [some (Cell.str ("z".data))])]⟩

/-- cw1_tabA maps each sample to its source-A table. -/
def cw1_tabA : Str → Frame := fun s => if s = "s1".data then cw1_t1A else cw1_t2A

/-- cw1_fs is a filesystem oracle where every sample has a well-formed
source-A file, sample s1 has a MALFORMED source-B file, and sample s2
has a well-formed source-B file. -/
def cw1_fs : Str → Str → FileState := fun s a =>
  if a = "A".data then FileState.table (cw1_tabA s)
  else if s = "s1".data then FileState.malformed
  else FileState.table cw1_t2B

/-- C1 witness: with the malformed (s1, B) file skipped, the join
succeeds and the row of the s1 key vk1 holds its A cells followed by
a missing value in the single B column. -/
theorem C1_witness :
    ∃ u, get_multi_annotations ["A".data, "B".data] ["s1".data, "s2".data] cw1_fs = .ok u ∧
      u.cols = ["A_f".data] ++ ["B_g".data] ∧
      u.rows.find? (fun r => decide (r.1 = vk1)) =
        some (vk1, [some (Cell.str ("x".data))] ++
          List.replicate (["B_g".data] : List Str).length none) :=
  C1_theorem ["s1".data, "s2".data] ("s1".data) ("A".data) ("B".data) cw1_fs
    cw1_tabA (fun _ => cw1_t2B) ["A_f".data] ["B_g".data] vk1 [some (Cell.str ("x".data))]
    (by decide) (by decide) (by decide) (by decide) (by decide) (by decide) (by decide)
    (by decide) (by decide) (by decide) ⟨"s2".data, by decide, by decide⟩
    (by decide) (by decide) (by decide) (by decide) (by decide)
